import Mathlib

/-!
Verification of the branching / strong-branching core of the `hurricane`
QUBO branch-and-bound solver (`src/branchbound_utils.rs`,
`src/initial_points.rs`).

Floating-point (`f64`) values are embedded as exact rationals `ℚ`; the
algebraic identities and comparison scans below are about the real-number
content of the code. `f64::NEG_INFINITY` / `f64::INFINITY` initial values of
the scan accumulators are embedded as an `Option` state (`none` = the
not-yet-updated infinite sentinel); every rational is strictly above
`NEG_INFINITY` and weakly below `INFINITY`, which is exactly how the code's
comparisons behave on finite, non-NaN data. A Rust `panic!` is embedded as
`Except.error` with a `RustPanic` tag.
-/

namespace Hurricane

/-- Modelled from the spec: the QUBO problem type (`qubo.rs`, not under
`src/`) holds a symmetric sparse matrix `Q` (n×n) and a dense vector `c`
(length n) for the objective; `num_x()` returns the dimension. The sparse
matrix is embedded here through its entry semantics `q i j` (the sprs
matric-vector and diagonal operations used by the evaluator are defined by
those entries). -/
structure Qubo where
  n : ℕ
  q : ℕ → ℕ → ℚ
  c : ℕ → ℚ

/-- `Qubo::num_x`, the number of variables. -/
def Qubo.num_x (qubo : Qubo) : ℕ := qubo.n

/-- The closed enumeration of branching strategies (`BranchStrategy`). -/
inductive BranchStrategy where
  | FirstNotFixed
  | MostViolated
  | Random
  | WorstApproximation
  | BestApproximation

/-- Options for the B&B solver (`SolverOptions`); the `HashMap<usize, f64>`
of initially fixed variables is embedded as a partial map `ℕ → Option ℚ`. -/
structure SolverOptions where
  fixed_variables : ℕ → Option ℚ
  branch_strategy : BranchStrategy
  max_time : ℚ
  seed : ℕ

/-- A branch-and-bound tree node (`QuboBBNode`): bound, fractional solution
(`Array1<f64>`, embedded by its entries), and the fixed-variable map. -/
structure QuboBBNode where
  lower_bound : ℚ
  solution : ℕ → ℚ
  fixed_variables : ℕ → Option ℚ

/-- Modelled from the spec: the run context (`BBSolver` in `branchbound.rs`,
not under `src/`) exposes the problem, the run options and the visited-node
counter; the strategy functions only read these fields. -/
structure BBSolver where
  qubo : Qubo
  options : SolverOptions
  nodes_visited : ℕ

/-- The two distinct panics reachable from the branching functions:
the explicit `panic!("No variable to branch on")` and Rust's implicit
panic on `% 0` (`attempt to calculate the remainder with a divisor of
zero`). -/
inductive RustPanic where
  | noVariableToBranchOn
  | remainderByZero
deriving DecidableEq

/-- `first_not_fixed`: scan `0..n` and return the first index that is not a
key of `fixed_variables`; `panic!` when none exists. -/
def first_not_fixed (solver : BBSolver) (node : QuboBBNode) : Except RustPanic ℕ :=
  match (List.range solver.qubo.num_x).find? (fun i => (node.fixed_variables i).isNone) with
  | some i => Except.ok i
  | none => Except.error RustPanic.noVariableToBranchOn

/-- Loop body of `most_violated`: skip fixed indices; on an unfixed index
compute `violation = |solution[i] - 0.5|` and replace the incumbent
`(most_violated, index_most_violated)` when `violation <= most_violated`. -/
def mv_step (node : QuboBBNode) (acc : ℚ × ℕ) (i : ℕ) : ℚ × ℕ :=
  if (node.fixed_variables i).isSome then acc
  else
    let violation := |node.solution i - 1/2|
    if violation ≤ acc.1 then (violation, i) else acc

/-- `most_violated`: fold of `mv_step` over `0..n` starting from
`most_violated = 1.0`, `index_most_violated = 0`; returns the final index. -/
def most_violated (solver : BBSolver) (node : QuboBBNode) : ℕ :=
  ((List.range solver.qubo.num_x).foldl (mv_step node) (1, 0)).2

/-- `random`: a PRNG is seeded with `options.seed + nodes_visited` and one
`u64` is drawn (the external `smolprng::JsfLarge` generator is abstracted as
the function `gen_u64` from the seed to that draw). The draw is reduced
`% num_x` — in Rust this panics when `num_x = 0` — and the variables are
scanned from `index` to `n`, then from `0` to `index`, returning the first
unfixed one; `panic!` when none exists. -/
def random (gen_u64 : ℕ → ℕ) (solver : BBSolver) (node : QuboBBNode) : Except RustPanic ℕ :=
  if solver.qubo.num_x = 0 then Except.error RustPanic.remainderByZero
  else
    let index := gen_u64 (solver.options.seed + solver.nodes_visited) % solver.qubo.num_x
    match (List.range' index (solver.qubo.num_x - index)).find?
        (fun i => (node.fixed_variables i).isNone) with
    | some i => Except.ok i
    | none =>
      match (List.range index).find? (fun i => (node.fixed_variables i).isNone) with
      | some i => Except.ok i
      | none => Except.error RustPanic.noVariableToBranchOn

/-- The base vector built by `compute_strong_branch`:
`fixed_variables[i]` when `i` is fixed, else `solution[i]`. -/
def base_solution (node : QuboBBNode) (i : ℕ) : ℚ :=
  match node.fixed_variables i with
  | some v => v
  | none => node.solution i

/-- `compute_strong_branch`: with `x` the base vector, `q_jj` the diagonal
of `Q`, `q_x = Q·x` and `x_q = Qᵀ·x`, returns the pair of arrays
`zero_result`, `one_result` with, for `d = -x[i]` resp. `d = 1 - x[i]`,
`0.5 * d * (d * q_jj[i] + x_q[i] + q_x[i] + 2 * c[i])`. -/
def compute_strong_branch (solver : BBSolver) (node : QuboBBNode) : (ℕ → ℚ) × (ℕ → ℚ) :=
  let q_jj : ℕ → ℚ := fun i => solver.qubo.q i i
  let q_x : ℕ → ℚ := fun i =>
    ∑ j ∈ Finset.range solver.qubo.num_x, solver.qubo.q i j * base_solution node j
  let x_q : ℕ → ℚ := fun i =>
    ∑ j ∈ Finset.range solver.qubo.num_x, solver.qubo.q j i * base_solution node j
  (fun i =>
    let d := -(base_solution node i)
    1/2 * d * (d * q_jj i + x_q i + q_x i + 2 * solver.qubo.c i),
   fun i =>
    let d := 1 - base_solution node i
    1/2 * d * (d * q_jj i + x_q i + q_x i + 2 * solver.qubo.c i))

/-- Loop body of `worst_approximation`: skip fixed indices; on an unfixed
index compute `min_obj_gain = min(zero_flip[i], one_flip[i])` and replace
the incumbent when `min_obj_gain > worst_approximation`. The accumulator
`none` is the initial `(f64::NEG_INFINITY, 0)` state, above which every
rational gain lies. -/
def wa_step (node : QuboBBNode) (zero_flip one_flip : ℕ → ℚ)
    (acc : Option (ℚ × ℕ)) (i : ℕ) : Option (ℚ × ℕ) :=
  if (node.fixed_variables i).isSome then acc
  else
    let min_obj_gain := min (zero_flip i) (one_flip i)
    match acc with
    | none => some (min_obj_gain, i)
    | some (best, idx) =>
      if best < min_obj_gain then some (min_obj_gain, i) else some (best, idx)

/-- `worst_approximation`: fold of `wa_step` over `0..n` on the strong-branch
outputs; returns the final index (`0`, the initial index, when no update
ever happened). -/
def worst_approximation (solver : BBSolver) (node : QuboBBNode) : ℕ :=
  let flips := compute_strong_branch solver node
  match (List.range solver.qubo.num_x).foldl (wa_step node flips.1 flips.2) none with
  | none => 0
  | some (_, idx) => idx

/-- Loop body of `best_approximation`: skip fixed indices; on an unfixed
index compute `max_obj_gain = max(zero_flip[i], one_flip[i])` and replace
the incumbent when `max_obj_gain <= worst_approximation`. The accumulator
`none` is the initial `(f64::INFINITY, 0)` state, which every rational gain
is `≤`. -/
def ba_step (node : QuboBBNode) (zero_flip one_flip : ℕ → ℚ)
    (acc : Option (ℚ × ℕ)) (i : ℕ) : Option (ℚ × ℕ) :=
  if (node.fixed_variables i).isSome then acc
  else
    let max_obj_gain := max (zero_flip i) (one_flip i)
    match acc with
    | none => some (max_obj_gain, i)
    | some (best, idx) =>
      if max_obj_gain ≤ best then some (max_obj_gain, i) else some (best, idx)

/-- `best_approximation`: fold of `ba_step` over `0..n` on the strong-branch
outputs; returns the final index (`0` when no update ever happened). -/
def best_approximation (solver : BBSolver) (node : QuboBBNode) : ℕ :=
  let flips := compute_strong_branch solver node
  match (List.range solver.qubo.num_x).foldl (ba_step node flips.1 flips.2) none with
  | none => 0
  | some (_, idx) => idx

/-- `generate_random_binary_point` (`initial_points.rs`): a zeroed length-`n`
buffer whose entry `i` is set to `1` when the `i`-th draw of the PRNG's
unit-interval stream (`gen_f64`, abstracted as `prng : ℕ → ℚ`) is `< sparsity`. -/
def generate_random_binary_point (n : ℕ) (prng : ℕ → ℚ) (sparsity : ℚ) : List ℕ :=
  (List.range n).map (fun i => if prng i < sparsity then 1 else 0)

/-! ### The objective function and coordinate perturbations (for the
strong-branching claims) -/

/-- Perturbing coordinate `i` of the vector `x` by `d`, holding all other
coordinates fixed. -/
def perturb (x : ℕ → ℚ) (i : ℕ) (d : ℚ) : ℕ → ℚ :=
  fun j => if j = i then x j + d else x j

/-- The objective exactly as the spec words it: `xᵀQx + cᵀx` over the `n`
problem coordinates. -/
def specObjective (qubo : Qubo) (x : ℕ → ℚ) : ℚ :=
  (∑ a ∈ Finset.range qubo.n, ∑ b ∈ Finset.range qubo.n, x a * qubo.q a b * x b)
  + ∑ a ∈ Finset.range qubo.n, qubo.c a * x a

/-- The objective with the conventional `½` on the quadratic part:
`½·xᵀQx + cᵀx`. -/
def halfObjective (qubo : Qubo) (x : ℕ → ℚ) : ℚ :=
  1/2 * (∑ a ∈ Finset.range qubo.n, ∑ b ∈ Finset.range qubo.n, x a * qubo.q a b * x b)
  + ∑ a ∈ Finset.range qubo.n, qubo.c a * x a

/-- The spec's wording of the `Random` strategy: take the start index
`gen_u64(seed + nodes_visited) mod n` and return the first unfixed variable
in the circular scan order `start, start+1, …` (indices mod `n`), failing
when none exists. -/
def circular_first_unfixed (gen_u64 : ℕ → ℕ) (solver : BBSolver) (node : QuboBBNode) :
    Except RustPanic ℕ :=
  let n := solver.qubo.num_x
  let start := gen_u64 (solver.options.seed + solver.nodes_visited) % n
  match ((List.range n).map (fun k => (start + k) % n)).find?
      (fun i => (node.fixed_variables i).isNone) with
  | some i => Except.ok i
  | none => Except.error RustPanic.noVariableToBranchOn

/-! ### The sparse-matrix adapter (`ClarabelWrapper`) -/

/-- A `sprs::CsMat<f64>` in compressed-row storage: `indptr` (length
`rows + 1`), the per-row column `indices` and the stored `data` values. -/
structure CsMat where
  rows : ℕ
  cols : ℕ
  indptr : List ℕ
  indices : List ℕ
  data : List ℚ

/-- Entry lookup in the CSR matrix: the stored value at `(r, c)`, `none`
when no entry is stored there. The row-`r` slice of `indices`/`data` is
`[indptr[r], indptr[r+1])`. -/
def CsMat.get? (m : CsMat) (r c : ℕ) : Option ℚ :=
  let lo := m.indptr.getD r 0
  let hi := m.indptr.getD (r + 1) 0
  ((((m.indices.zip m.data).drop lo).take (hi - lo)).find? (fun e => e.1 == c)).map (·.2)

/-- The structural invariants `sprs` maintains for a `CsMat`: index arrays
of matching length, a monotone `indptr` starting at `0` and ending at the
number of stored entries, and per-row column indices strictly increasing
and within `[0, cols)`. -/
def CsMat.WF (m : CsMat) : Prop :=
  m.indptr.length = m.rows + 1 ∧
  m.indices.length = m.data.length ∧
  m.indptr.getD 0 0 = 0 ∧
  m.indptr.getD m.rows 0 = m.indices.length ∧
  (∀ r < m.rows, m.indptr.getD r 0 ≤ m.indptr.getD (r + 1) 0) ∧
  (∀ x ∈ m.indices, x < m.cols) ∧
  (∀ r < m.rows,
    ((m.indices.drop (m.indptr.getD r 0)).take
      (m.indptr.getD (r + 1) 0 - m.indptr.getD r 0)).Chain' (· < ·))

/-- Column `j` of the compressed-column form: the stored entries `(r, v)` of
column `j`, scanned by increasing row. (This is the column the external
`sprs::CsMat::to_csc` conversion produces: same entries, same values, rows
in increasing order.) -/
def to_csc_col (m : CsMat) (j : ℕ) : List (ℕ × ℚ) :=
  (List.range m.rows).filterMap (fun r => (m.get? r j).map (fun v => (r, v)))

/-- All columns of the compressed-column form, in column order. -/
def cscColLists (m : CsMat) : List (List (ℕ × ℚ)) :=
  (List.range m.cols).map (to_csc_col m)

/-- The raw storage `(indptr, indices, data)` of the compressed-column form
(`to_csc().into_raw_storage()`): column pointers are the running entry
counts, and the index/value arrays are the concatenated columns. -/
def to_csc (m : CsMat) : List ℕ × List ℕ × List ℚ :=
  ((List.range (m.cols + 1)).map
      (fun j => (((cscColLists m).take j).map List.length).sum),
    (cscColLists m).flatten.map (·.1),
    (cscColLists m).flatten.map (·.2))

/-- `clarabel::algebra::CscMatrix`: row count `m`, column count `n`,
compressed-column storage arrays. -/
structure CscMatrix where
  m : ℕ
  n : ℕ
  colptr : List ℕ
  rowval : List ℕ
  nzval : List ℚ

/-- `CscMatrix::new(m, n, colptr, rowval, nzval)`. -/
def CscMatrix.new (mm nn : ℕ) (colptr rowval : List ℕ) (nzval : List ℚ) : CscMatrix :=
  { m := mm, n := nn, colptr := colptr, rowval := rowval, nzval := nzval }

/-- Entry lookup in the compressed-column matrix: the stored value at
`(r, c)`, `none` when no entry is stored there. -/
def CscMatrix.get? (A : CscMatrix) (r c : ℕ) : Option ℚ :=
  let lo := A.colptr.getD c 0
  let hi := A.colptr.getD (c + 1) 0
  ((((A.rowval.zip A.nzval).drop lo).take (hi - lo)).find? (fun e => e.1 == r)).map (·.2)

/-- Modelled from the spec: the `Qubo` problem type (`qubo.rs`, not under
`src/`) seen at its sparse storage, as `ClarabelWrapper::new` consumes it:
the CSR matrix `q` and the dense linear term `c`. -/
structure QuboSparse where
  q : CsMat
  c : ℕ → ℚ

/-- The wrapper pairing the converted matrix with the (cloned, unchanged)
linear term (`ClarabelWrapper`). -/
structure ClarabelWrapper where
  q : CscMatrix
  c : ℕ → ℚ

/-- `ClarabelWrapper::make_cb_form`: unpack the raw compressed-column
storage `(t, y, u)` of `p0.to_csc()` and rebuild it as a
`CscMatrix::new(p0.rows(), p0.cols(), t, y, u)`. -/
def ClarabelWrapper.make_cb_form (p0 : CsMat) : CscMatrix :=
  CscMatrix.new p0.rows p0.cols (to_csc p0).1 (to_csc p0).2.1 (to_csc p0).2.2

/-- `ClarabelWrapper::new`: convert the matrix, clone the linear term. -/
def ClarabelWrapper.new (qubo : QuboSparse) : ClarabelWrapper :=
  { q := ClarabelWrapper.make_cb_form qubo.q, c := qubo.c }

/-! ### Concrete instances used by the witnesses and counterexamples -/

/-- An `n`-variable QUBO with zero quadratic and linear coefficients. -/
def zeroQubo (n : ℕ) : Qubo :=
  { n := n, q := fun _ _ => 0, c := fun _ => 0 }

/-- Default run options for the concrete instances. -/
def defaultOptions : SolverOptions :=
  { fixed_variables := fun _ => none, branch_strategy := BranchStrategy.MostViolated,
    max_time := 0, seed := 0 }

/-- A solver context around a given problem. -/
def mkSolver (qubo : Qubo) : BBSolver :=
  { qubo := qubo, options := defaultOptions, nodes_visited := 0 }

/-- Three variables, no fixed variables, solution `[0.1, 0.5, 0.9]`. -/
def mvExampleNode : QuboBBNode :=
  { lower_bound := 0,
    solution := fun i => if i = 0 then 1/10 else if i = 1 then 1/2 else 9/10,
    fixed_variables := fun _ => none }

/-- Two variables, no fixed variables, solution `[10, 2]`: both violations
exceed the initial threshold `1.0` of `most_violated`. -/
def mvBadNode : QuboBBNode :=
  { lower_bound := 0,
    solution := fun i => if i = 0 then 10 else 2,
    fixed_variables := fun _ => none }

/-- Two variables, variable `0` fixed to `1`, solution `[1, 10]`: the only
unfixed variable has violation above the initial threshold `1.0`. -/
def c3BadNode : QuboBBNode :=
  { lower_bound := 0,
    solution := fun i => if i = 0 then 1 else 10,
    fixed_variables := fun i => if i = 0 then some 1 else none }

/-- One variable, fixed to `0`: a fully fixed node. -/
def fullNode : QuboBBNode :=
  { lower_bound := 0, solution := fun _ => 0, fixed_variables := fun _ => some 0 }

/-- One-variable problem with `Q = [[2]]`, `c = [0]`. -/
def c2ExampleQubo : Qubo :=
  { n := 1, q := fun _ _ => 2, c := fun _ => 0 }

/-- One variable, unfixed, at `solution = [1]`. -/
def c2ExampleNode : QuboBBNode :=
  { lower_bound := 0, solution := fun _ => 1, fixed_variables := fun _ => none }

/-- Two-variable problem with `Q = [[1, 0], [0, 3]]`, `c = [0, 0]`:
the two strong-branch keys differ across the variables. -/
def saExampleQubo : Qubo :=
  { n := 2, q := fun i j => if i = 0 ∧ j = 0 then 1 else if i = 1 ∧ j = 1 then 3 else 0,
    c := fun _ => 0 }

/-- Two variables, unfixed, at `solution = [1/2, 1/2]`. -/
def saExampleNode : QuboBBNode :=
  { lower_bound := 0, solution := fun _ => 1/2, fixed_variables := fun _ => none }

/-- Two variables with variable `0` fixed to `1`; variable `1` unfixed at
`solution = 1/4`. -/
def randExampleNode : QuboBBNode :=
  { lower_bound := 0, solution := fun _ => 1/4,
    fixed_variables := fun i => if i = 0 then some 1 else none }

/-- A second solver context around the same two-variable problem that
differs from `mkSolver (zeroQubo 2)` only in `max_time`. -/
def altSolver2 : BBSolver :=
  { qubo := zeroQubo 2,
    options := { fixed_variables := fun _ => none,
                 branch_strategy := BranchStrategy.Random, max_time := 7, seed := 0 },
    nodes_visited := 0 }

/-- A concrete CSR matrix: `[[1, 0], [2, 3]]` with `indptr = [0, 1, 3]`,
`indices = [0, 0, 1]`, `data = [1, 2, 3]`. -/
def exampleCsr : CsMat :=
  { rows := 2, cols := 2, indptr := [0, 1, 3], indices := [0, 0, 1], data := [1, 2, 3] }

/-! ### Invariants of the three comparison scans -/

lemma mv_step_fixed (node : QuboBBNode) (acc : ℚ × ℕ) (i : ℕ)
    (h : (node.fixed_variables i).isSome) : mv_step node acc i = acc := by
  simp [mv_step, h]

lemma mv_step_update (node : QuboBBNode) (acc : ℚ × ℕ) (i : ℕ)
    (h : node.fixed_variables i = none) (hv : |node.solution i - 1/2| ≤ acc.1) :
    mv_step node acc i = (|node.solution i - 1/2|, i) := by
  rw [mv_step, if_neg (by simp [h]), if_pos hv]

lemma mv_step_keep (node : QuboBBNode) (acc : ℚ × ℕ) (i : ℕ)
    (h : node.fixed_variables i = none) (hv : ¬ |node.solution i - 1/2| ≤ acc.1) :
    mv_step node acc i = acc := by
  rw [mv_step, if_neg (by simp [h]), if_neg hv]

/-- Invariant of the `most_violated` scan after processing indices `0..m`:
either no unfixed index so far had violation `≤ 1` and the accumulator still
holds the initial `(1.0, 0)`, or the accumulator holds an unfixed index of
minimal violation among the unfixed indices so far, the last such index in
scan order. -/
lemma mv_fold_spec (node : QuboBBNode) (m : ℕ) :
    ((List.range m).foldl (mv_step node) (1, 0) = ((1 : ℚ), (0 : ℕ)) ∧
      ∀ j < m, node.fixed_variables j = none → 1 < |node.solution j - 1/2|) ∨
    (∃ b idx, (List.range m).foldl (mv_step node) (1, 0) = (b, idx) ∧
      node.fixed_variables idx = none ∧ idx < m ∧ |node.solution idx - 1/2| = b ∧ b ≤ 1 ∧
      (∀ j < m, node.fixed_variables j = none → b ≤ |node.solution j - 1/2|) ∧
      (∀ j, idx < j → j < m → node.fixed_variables j = none → b < |node.solution j - 1/2|)) := by
  induction m with
  | zero =>
    left
    exact ⟨rfl, fun j hj => absurd hj (Nat.not_lt_zero j)⟩
  | succ m ih =>
    rw [List.range_succ, List.foldl_append, List.foldl_cons, List.foldl_nil]
    rcases ih with ⟨hst, hall⟩ | ⟨b, idx, hst, hunf, hlt, hviol, hb1, hmin, hlast⟩
    · rw [hst]
      by_cases hm : (node.fixed_variables m).isSome
      · left
        refine ⟨mv_step_fixed node _ m hm, fun j hj hj0 => ?_⟩
        rcases Nat.lt_succ_iff_lt_or_eq.mp hj with h | h
        · exact hall j h hj0
        · rw [h] at hj0; rw [hj0] at hm; simp at hm
      · rw [Option.not_isSome_iff_eq_none] at hm
        by_cases hv : |node.solution m - 1/2| ≤ ((1 : ℚ), (0 : ℕ)).1
        · right
          refine ⟨_, m, mv_step_update node _ m hm hv, hm, Nat.lt_succ_self m, rfl, hv, ?_, ?_⟩
          · intro j hj hj0
            rcases Nat.lt_succ_iff_lt_or_eq.mp hj with h | h
            · exact le_trans hv (le_of_lt (hall j h hj0))
            · rw [h]
          · intro j hj hj' _
            omega
        · left
          refine ⟨mv_step_keep node _ m hm hv, fun j hj hj0 => ?_⟩
          rcases Nat.lt_succ_iff_lt_or_eq.mp hj with h | h
          · exact hall j h hj0
          · rw [h]; exact lt_of_not_le hv
    · rw [hst]
      by_cases hm : (node.fixed_variables m).isSome
      · right
        refine ⟨b, idx, mv_step_fixed node _ m hm, hunf, Nat.lt_succ_of_lt hlt, hviol, hb1,
          fun j hj hj0 => ?_, fun j hj hj' hj0 => ?_⟩
        · rcases Nat.lt_succ_iff_lt_or_eq.mp hj with h | h
          · exact hmin j h hj0
          · rw [h] at hj0; rw [hj0] at hm; simp at hm
        · rcases Nat.lt_succ_iff_lt_or_eq.mp hj' with h | h
          · exact hlast j hj h hj0
          · rw [h] at hj0; rw [hj0] at hm; simp at hm
      · rw [Option.not_isSome_iff_eq_none] at hm
        by_cases hv : |node.solution m - 1/2| ≤ ((b, idx) : ℚ × ℕ).1
        · right
          refine ⟨_, m, mv_step_update node _ m hm hv, hm, Nat.lt_succ_self m, rfl,
            le_trans hv hb1, fun j hj hj0 => ?_, fun j hj hj' _ => by omega⟩
          rcases Nat.lt_succ_iff_lt_or_eq.mp hj with h | h
          · exact le_trans hv (hmin j h hj0)
          · rw [h]
        · right
          refine ⟨b, idx, mv_step_keep node _ m hm hv, hunf, Nat.lt_succ_of_lt hlt, hviol, hb1,
            fun j hj hj0 => ?_, fun j hj hj' hj0 => ?_⟩
          · rcases Nat.lt_succ_iff_lt_or_eq.mp hj with h | h
            · exact hmin j h hj0
            · rw [h]; exact le_of_lt (lt_of_not_le hv)
          · rcases Nat.lt_succ_iff_lt_or_eq.mp hj' with h | h
            · exact hlast j hj h hj0
            · rw [h]; exact lt_of_not_le hv

lemma wa_step_fixed (node : QuboBBNode) (zero_flip one_flip : ℕ → ℚ)
    (acc : Option (ℚ × ℕ)) (i : ℕ) (h : (node.fixed_variables i).isSome) :
    wa_step node zero_flip one_flip acc i = acc := by
  simp [wa_step, h]

lemma wa_step_start (node : QuboBBNode) (zero_flip one_flip : ℕ → ℚ) (i : ℕ)
    (h : node.fixed_variables i = none) :
    wa_step node zero_flip one_flip none i = some (min (zero_flip i) (one_flip i), i) := by
  rw [wa_step, if_neg (by simp [h])]

lemma wa_step_update (node : QuboBBNode) (zero_flip one_flip : ℕ → ℚ) (b : ℚ) (idx i : ℕ)
    (h : node.fixed_variables i = none) (hv : b < min (zero_flip i) (one_flip i)) :
    wa_step node zero_flip one_flip (some (b, idx)) i =
      some (min (zero_flip i) (one_flip i), i) := by
  rw [wa_step, if_neg (by simp [h])]
  simp only [if_pos hv]

lemma wa_step_keep (node : QuboBBNode) (zero_flip one_flip : ℕ → ℚ) (b : ℚ) (idx i : ℕ)
    (h : node.fixed_variables i = none) (hv : ¬ b < min (zero_flip i) (one_flip i)) :
    wa_step node zero_flip one_flip (some (b, idx)) i = some (b, idx) := by
  rw [wa_step, if_neg (by simp [h])]
  simp only [if_neg hv]

/-- Invariant of the `worst_approximation` scan after processing `0..m`:
either every index so far is fixed and the accumulator is still the initial
`(NEG_INFINITY, 0)` state, or the accumulator holds the first unfixed index
maximizing `min(zero_flip, one_flip)` among the unfixed indices so far. -/
lemma wa_fold_spec (node : QuboBBNode) (zero_flip one_flip : ℕ → ℚ) (m : ℕ) :
    ((List.range m).foldl (wa_step node zero_flip one_flip) none = none ∧
      ∀ j < m, (node.fixed_variables j).isSome) ∨
    (∃ b idx, (List.range m).foldl (wa_step node zero_flip one_flip) none = some (b, idx) ∧
      node.fixed_variables idx = none ∧ idx < m ∧ min (zero_flip idx) (one_flip idx) = b ∧
      (∀ j < m, node.fixed_variables j = none → min (zero_flip j) (one_flip j) ≤ b) ∧
      (∀ j < idx, node.fixed_variables j = none → min (zero_flip j) (one_flip j) < b)) := by
  induction m with
  | zero =>
    left
    exact ⟨rfl, fun j hj => absurd hj (Nat.not_lt_zero j)⟩
  | succ m ih =>
    rw [List.range_succ, List.foldl_append, List.foldl_cons, List.foldl_nil]
    rcases ih with ⟨hst, hall⟩ | ⟨b, idx, hst, hunf, hlt, hkey, hmax, hfirst⟩
    · rw [hst]
      by_cases hm : (node.fixed_variables m).isSome
      · left
        refine ⟨wa_step_fixed node _ _ _ m hm, fun j hj => ?_⟩
        rcases Nat.lt_succ_iff_lt_or_eq.mp hj with h | h
        · exact hall j h
        · rw [h]; exact hm
      · rw [Option.not_isSome_iff_eq_none] at hm
        right
        refine ⟨_, m, wa_step_start node _ _ m hm, hm, Nat.lt_succ_self m, rfl,
          fun j hj hj0 => ?_, fun j hj hj0 => ?_⟩
        · rcases Nat.lt_succ_iff_lt_or_eq.mp hj with h | h
          · have := hall j h; rw [hj0] at this; simp at this
          · rw [h]
        · have := hall j hj; rw [hj0] at this; simp at this
    · rw [hst]
      by_cases hm : (node.fixed_variables m).isSome
      · right
        refine ⟨b, idx, wa_step_fixed node _ _ _ m hm, hunf, Nat.lt_succ_of_lt hlt, hkey,
          fun j hj hj0 => ?_, hfirst⟩
        rcases Nat.lt_succ_iff_lt_or_eq.mp hj with h | h
        · exact hmax j h hj0
        · rw [h] at hj0; rw [hj0] at hm; simp at hm
      · rw [Option.not_isSome_iff_eq_none] at hm
        by_cases hv : b < min (zero_flip m) (one_flip m)
        · right
          refine ⟨_, m, wa_step_update node _ _ b idx m hm hv, hm, Nat.lt_succ_self m, rfl,
            fun j hj hj0 => ?_, fun j hj hj0 => ?_⟩
          · rcases Nat.lt_succ_iff_lt_or_eq.mp hj with h | h
            · exact le_of_lt (lt_of_le_of_lt (hmax j h hj0) hv)
            · rw [h]
          · exact lt_of_le_of_lt (hmax j hj hj0) hv
        · right
          refine ⟨b, idx, wa_step_keep node _ _ b idx m hm hv, hunf, Nat.lt_succ_of_lt hlt,
            hkey, fun j hj hj0 => ?_, hfirst⟩
          rcases Nat.lt_succ_iff_lt_or_eq.mp hj with h | h
          · exact hmax j h hj0
          · rw [h]; exact le_of_not_lt hv

lemma ba_step_fixed (node : QuboBBNode) (zero_flip one_flip : ℕ → ℚ)
    (acc : Option (ℚ × ℕ)) (i : ℕ) (h : (node.fixed_variables i).isSome) :
    ba_step node zero_flip one_flip acc i = acc := by
  simp [ba_step, h]

lemma ba_step_start (node : QuboBBNode) (zero_flip one_flip : ℕ → ℚ) (i : ℕ)
    (h : node.fixed_variables i = none) :
    ba_step node zero_flip one_flip none i = some (max (zero_flip i) (one_flip i), i) := by
  rw [ba_step, if_neg (by simp [h])]

lemma ba_step_update (node : QuboBBNode) (zero_flip one_flip : ℕ → ℚ) (b : ℚ) (idx i : ℕ)
    (h : node.fixed_variables i = none) (hv : max (zero_flip i) (one_flip i) ≤ b) :
    ba_step node zero_flip one_flip (some (b, idx)) i =
      some (max (zero_flip i) (one_flip i), i) := by
  rw [ba_step, if_neg (by simp [h])]
  simp only [if_pos hv]

lemma ba_step_keep (node : QuboBBNode) (zero_flip one_flip : ℕ → ℚ) (b : ℚ) (idx i : ℕ)
    (h : node.fixed_variables i = none) (hv : ¬ max (zero_flip i) (one_flip i) ≤ b) :
    ba_step node zero_flip one_flip (some (b, idx)) i = some (b, idx) := by
  rw [ba_step, if_neg (by simp [h])]
  simp only [if_neg hv]

/-- Invariant of the `best_approximation` scan after processing `0..m`:
either every index so far is fixed and the accumulator is still the initial
`(INFINITY, 0)` state, or the accumulator holds the last unfixed index
minimizing `max(zero_flip, one_flip)` among the unfixed indices so far. -/
lemma ba_fold_spec (node : QuboBBNode) (zero_flip one_flip : ℕ → ℚ) (m : ℕ) :
    ((List.range m).foldl (ba_step node zero_flip one_flip) none = none ∧
      ∀ j < m, (node.fixed_variables j).isSome) ∨
    (∃ b idx, (List.range m).foldl (ba_step node zero_flip one_flip) none = some (b, idx) ∧
      node.fixed_variables idx = none ∧ idx < m ∧ max (zero_flip idx) (one_flip idx) = b ∧
      (∀ j < m, node.fixed_variables j = none → b ≤ max (zero_flip j) (one_flip j)) ∧
      (∀ j, idx < j → j < m → node.fixed_variables j = none →
        b < max (zero_flip j) (one_flip j))) := by
  induction m with
  | zero =>
    left
    exact ⟨rfl, fun j hj => absurd hj (Nat.not_lt_zero j)⟩
  | succ m ih =>
    rw [List.range_succ, List.foldl_append, List.foldl_cons, List.foldl_nil]
    rcases ih with ⟨hst, hall⟩ | ⟨b, idx, hst, hunf, hlt, hkey, hmin, hlast⟩
    · rw [hst]
      by_cases hm : (node.fixed_variables m).isSome
      · left
        refine ⟨ba_step_fixed node _ _ _ m hm, fun j hj => ?_⟩
        rcases Nat.lt_succ_iff_lt_or_eq.mp hj with h | h
        · exact hall j h
        · rw [h]; exact hm
      · rw [Option.not_isSome_iff_eq_none] at hm
        right
        refine ⟨_, m, ba_step_start node _ _ m hm, hm, Nat.lt_succ_self m, rfl,
          fun j hj hj0 => ?_, fun j hj hj' hj0 => by omega⟩
        rcases Nat.lt_succ_iff_lt_or_eq.mp hj with h | h
        · have := hall j h; rw [hj0] at this; simp at this
        · rw [h]
    · rw [hst]
      by_cases hm : (node.fixed_variables m).isSome
      · right
        refine ⟨b, idx, ba_step_fixed node _ _ _ m hm, hunf, Nat.lt_succ_of_lt hlt, hkey,
          fun j hj hj0 => ?_, fun j hj hj' hj0 => ?_⟩
        · rcases Nat.lt_succ_iff_lt_or_eq.mp hj with h | h
          · exact hmin j h hj0
          · rw [h] at hj0; rw [hj0] at hm; simp at hm
        · rcases Nat.lt_succ_iff_lt_or_eq.mp hj' with h | h
          · exact hlast j hj h hj0
          · rw [h] at hj0; rw [hj0] at hm; simp at hm
      · rw [Option.not_isSome_iff_eq_none] at hm
        by_cases hv : max (zero_flip m) (one_flip m) ≤ b
        · right
          refine ⟨_, m, ba_step_update node _ _ b idx m hm hv, hm, Nat.lt_succ_self m, rfl,
            fun j hj hj0 => ?_, fun j hj hj' _ => by omega⟩
          rcases Nat.lt_succ_iff_lt_or_eq.mp hj with h | h
          · exact le_trans hv (hmin j h hj0)
          · rw [h]
        · right
          refine ⟨b, idx, ba_step_keep node _ _ b idx m hm hv, hunf, Nat.lt_succ_of_lt hlt,
            hkey, fun j hj hj0 => ?_, fun j hj hj' hj0 => ?_⟩
          · rcases Nat.lt_succ_iff_lt_or_eq.mp hj with h | h
            · exact hmin j h hj0
            · rw [h]; exact le_of_lt (lt_of_not_le hv)
          · rcases Nat.lt_succ_iff_lt_or_eq.mp hj' with h | h
            · exact hlast j hj h hj0
            · rw [h]; exact lt_of_not_le hv

/-! ### Perturbation algebra for the strong-branching claims -/

lemma sum_mul_perturb (n i : ℕ) (hi : i < n) (f x : ℕ → ℚ) (d : ℚ) :
    ∑ j ∈ Finset.range n, f j * perturb x i d j
      = (∑ j ∈ Finset.range n, f j * x j) + f i * d := by
  have h : ∀ j, f j * perturb x i d j = f j * x j + (if j = i then f j * d else 0) := by
    intro j
    by_cases hj : j = i
    · subst hj; simp [perturb, mul_add]
    · simp [perturb, hj]
  rw [Finset.sum_congr rfl (fun j _ => h j), Finset.sum_add_distrib,
      Finset.sum_ite_eq' (Finset.range n) i (fun j => f j * d),
      if_pos (Finset.mem_range.mpr hi)]

lemma sum_perturb_mul (n i : ℕ) (hi : i < n) (f x : ℕ → ℚ) (d : ℚ) :
    ∑ j ∈ Finset.range n, perturb x i d j * f j
      = (∑ j ∈ Finset.range n, x j * f j) + d * f i := by
  have h : ∀ j, perturb x i d j * f j = x j * f j + (if j = i then d * f j else 0) := by
    intro j
    by_cases hj : j = i
    · subst hj; simp [perturb, add_mul]
    · simp [perturb, hj]
  rw [Finset.sum_congr rfl (fun j _ => h j), Finset.sum_add_distrib,
      Finset.sum_ite_eq' (Finset.range n) i (fun j => d * f j),
      if_pos (Finset.mem_range.mpr hi)]

/-- Exact effect of a coordinate perturbation on the quadratic form
`xᵀQx`, with both cross terms `(Q·x)ᵢ` and `(Qᵀ·x)ᵢ` appearing. -/
lemma quad_perturb (n i : ℕ) (hi : i < n) (q : ℕ → ℕ → ℚ) (x : ℕ → ℚ) (d : ℚ) :
    (∑ a ∈ Finset.range n, ∑ b ∈ Finset.range n, perturb x i d a * q a b * perturb x i d b)
      = (∑ a ∈ Finset.range n, ∑ b ∈ Finset.range n, x a * q a b * x b)
        + d * ((∑ b ∈ Finset.range n, q i b * x b)
          + (∑ a ∈ Finset.range n, q a i * x a) + q i i * d) := by
  have h1 : ∀ a, ∑ b ∈ Finset.range n, perturb x i d a * q a b * perturb x i d b
      = (∑ b ∈ Finset.range n, perturb x i d a * q a b * x b)
        + perturb x i d a * q a i * d :=
    fun a => sum_mul_perturb n i hi (fun b => perturb x i d a * q a b) x d
  rw [Finset.sum_congr rfl (fun a _ => h1 a), Finset.sum_add_distrib]
  have h2 : ∑ a ∈ Finset.range n, ∑ b ∈ Finset.range n, perturb x i d a * q a b * x b
      = (∑ a ∈ Finset.range n, ∑ b ∈ Finset.range n, x a * q a b * x b)
        + d * ∑ b ∈ Finset.range n, q i b * x b := by
    have hinner : ∀ y : ℕ → ℚ, ∀ a, ∑ b ∈ Finset.range n, y a * q a b * x b
        = y a * ∑ b ∈ Finset.range n, q a b * x b := by
      intro y a
      rw [Finset.mul_sum]
      exact Finset.sum_congr rfl (fun b _ => by ring)
    rw [Finset.sum_congr rfl (fun a _ => hinner (perturb x i d) a),
        sum_perturb_mul n i hi (fun a => ∑ b ∈ Finset.range n, q a b * x b) x d]
    congr 1
    exact (Finset.sum_congr rfl (fun a _ => (hinner x a).symm))
  have h3 : ∑ a ∈ Finset.range n, perturb x i d a * q a i * d
      = (∑ a ∈ Finset.range n, x a * (q a i * d)) + d * (q i i * d) := by
    calc ∑ a ∈ Finset.range n, perturb x i d a * q a i * d
        = ∑ a ∈ Finset.range n, perturb x i d a * (q a i * d) :=
          Finset.sum_congr rfl (fun a _ => by ring)
      _ = (∑ a ∈ Finset.range n, x a * (q a i * d)) + d * (q i i * d) :=
          sum_perturb_mul n i hi (fun a => q a i * d) x d
  rw [h2, h3]
  have h4 : ∑ a ∈ Finset.range n, x a * (q a i * d)
      = d * ∑ a ∈ Finset.range n, q a i * x a := by
    rw [Finset.mul_sum]
    exact Finset.sum_congr rfl (fun a _ => by ring)
  rw [h4]
  ring

/-- Exact effect of a coordinate perturbation on `½·xᵀQx + cᵀx`. -/
lemma halfObjective_perturb (qubo : Qubo) (x : ℕ → ℚ) (i : ℕ) (hi : i < qubo.n) (d : ℚ) :
    halfObjective qubo (perturb x i d) - halfObjective qubo x
      = 1/2 * d * (d * qubo.q i i
          + (∑ a ∈ Finset.range qubo.n, qubo.q a i * x a)
          + (∑ b ∈ Finset.range qubo.n, qubo.q i b * x b) + 2 * qubo.c i) := by
  rw [halfObjective, halfObjective, quad_perturb qubo.n i hi qubo.q x d,
      sum_mul_perturb qubo.n i hi qubo.c x d]
  ring

/-! ### Behaviour on fully fixed nodes -/

lemma not_isNone_of_isSome {α : Type} {o : Option α} (h : o.isSome) : ¬ o.isNone = true := by
  cases o <;> simp_all

/-- A fold whose step leaves the accumulator unchanged on fixed indices is
the identity on a list of fixed indices. -/
lemma foldl_fixed_eq {α : Type} (node : QuboBBNode) (step : α → ℕ → α)
    (hstep : ∀ acc i, (node.fixed_variables i).isSome → step acc i = acc)
    (l : List ℕ) :
    (∀ i ∈ l, (node.fixed_variables i).isSome) → ∀ init : α, l.foldl step init = init := by
  induction l with
  | nil => intro _ init; rfl
  | cons a t ih =>
    intro hl init
    rw [List.foldl_cons, hstep init a (hl a (List.mem_cons_self a t))]
    exact ih (fun i hi => hl i (List.mem_cons_of_mem a hi)) init

/-- `random` reaches its explicit `panic!` on a fully fixed node (when
`num_x ≠ 0`, so that the `% num_x` start-index computation succeeds). -/
lemma random_all_fixed (gen_u64 : ℕ → ℕ) (solver : BBSolver) (node : QuboBBNode)
    (hn : solver.qubo.num_x ≠ 0)
    (hfull : ∀ i < solver.qubo.num_x, (node.fixed_variables i).isSome) :
    random gen_u64 solver node = Except.error RustPanic.noVariableToBranchOn := by
  simp only [random]
  rw [if_neg hn]
  have hidx : gen_u64 (solver.options.seed + solver.nodes_visited) % solver.qubo.num_x
      < solver.qubo.num_x := Nat.mod_lt _ (Nat.pos_of_ne_zero hn)
  have h1 : (List.range'
        (gen_u64 (solver.options.seed + solver.nodes_visited) % solver.qubo.num_x)
        (solver.qubo.num_x -
          gen_u64 (solver.options.seed + solver.nodes_visited) % solver.qubo.num_x)).find?
      (fun i => (node.fixed_variables i).isNone) = none := by
    refine List.find?_eq_none.mpr (fun i hi => ?_)
    obtain ⟨hle, hlt⟩ := List.mem_range'_1.mp hi
    exact not_isNone_of_isSome (hfull i (by omega))
  have h2 : (List.range
        (gen_u64 (solver.options.seed + solver.nodes_visited) % solver.qubo.num_x)).find?
      (fun i => (node.fixed_variables i).isNone) = none := by
    refine List.find?_eq_none.mpr (fun i hi => ?_)
    have := List.mem_range.mp hi
    exact not_isNone_of_isSome (hfull i (by omega))
  rw [h1, h2]

/-! ### What each strategy returns on a node with an unfixed variable -/

lemma first_not_fixed_finds (solver : BBSolver) (node : QuboBBNode)
    (h : ∃ i < solver.qubo.num_x, node.fixed_variables i = none) :
    ∃ r, first_not_fixed solver node = Except.ok r ∧ r < solver.qubo.num_x ∧
      node.fixed_variables r = none := by
  obtain ⟨i0, hi0n, hi0u⟩ := h
  cases hf : (List.range solver.qubo.num_x).find? (fun i => (node.fixed_variables i).isNone) with
  | none =>
    have := List.find?_eq_none.mp hf i0 (List.mem_range.mpr hi0n)
    simp [hi0u] at this
  | some r =>
    refine ⟨r, ?_, List.mem_range.mp (List.mem_of_find?_eq_some hf),
      by simpa using List.find?_some hf⟩
    rw [first_not_fixed, hf]

lemma random_finds_unfixed (gen_u64 : ℕ → ℕ) (solver : BBSolver) (node : QuboBBNode)
    (h : ∃ i < solver.qubo.num_x, node.fixed_variables i = none) :
    ∃ r, random gen_u64 solver node = Except.ok r ∧ r < solver.qubo.num_x ∧
      node.fixed_variables r = none := by
  obtain ⟨i0, hi0n, hi0u⟩ := h
  have hn : solver.qubo.num_x ≠ 0 := by omega
  simp only [random]
  rw [if_neg hn]
  set start := gen_u64 (solver.options.seed + solver.nodes_visited) % solver.qubo.num_x
    with hstart
  have hslt : start < solver.qubo.num_x := Nat.mod_lt _ (Nat.pos_of_ne_zero hn)
  cases h1 : (List.range' start (solver.qubo.num_x - start)).find?
      (fun i => (node.fixed_variables i).isNone) with
  | some r =>
    obtain ⟨hle, hlt⟩ := List.mem_range'_1.mp (List.mem_of_find?_eq_some h1)
    exact ⟨r, rfl, by omega, by simpa using List.find?_some h1⟩
  | none =>
    have hi0lt : i0 < start := by
      by_contra hcon
      push_neg at hcon
      have hmem : i0 ∈ List.range' start (solver.qubo.num_x - start) :=
        List.mem_range'_1.mpr ⟨hcon, by omega⟩
      have := List.find?_eq_none.mp h1 i0 hmem
      simp [hi0u] at this
    cases h2 : (List.range start).find? (fun i => (node.fixed_variables i).isNone) with
    | some r =>
      have hmem := List.mem_range.mp (List.mem_of_find?_eq_some h2)
      exact ⟨r, rfl, by omega, by simpa using List.find?_some h2⟩
    | none =>
      have := List.find?_eq_none.mp h2 i0 (List.mem_range.mpr hi0lt)
      simp [hi0u] at this

lemma most_violated_spec (solver : BBSolver) (node : QuboBBNode)
    (h : ∃ i < solver.qubo.num_x, node.fixed_variables i = none ∧
      |node.solution i - 1/2| ≤ 1) :
    node.fixed_variables (most_violated solver node) = none ∧
    most_violated solver node < solver.qubo.num_x ∧
    (∀ j < solver.qubo.num_x, node.fixed_variables j = none →
      |node.solution (most_violated solver node) - 1/2| ≤ |node.solution j - 1/2|) ∧
    (∀ j, most_violated solver node < j → j < solver.qubo.num_x →
      node.fixed_variables j = none →
      |node.solution (most_violated solver node) - 1/2| < |node.solution j - 1/2|) := by
  obtain ⟨i0, hi0n, hi0u, hi0v⟩ := h
  rcases mv_fold_spec node solver.qubo.num_x with ⟨hst, hall⟩ |
    ⟨b, idx, hst, hunf, hlt, hviol, hb1, hmin, hlast⟩
  · exact absurd hi0v (not_le.mpr (hall i0 hi0n hi0u))
  · have hres : most_violated solver node = idx := by rw [most_violated, hst]
    rw [hres]
    refine ⟨hunf, hlt, fun j hj hju => ?_, fun j hj hj' hju => ?_⟩
    · rw [hviol]; exact hmin j hj hju
    · rw [hviol]; exact hlast j hj hj' hju

lemma worst_approximation_spec (solver : BBSolver) (node : QuboBBNode)
    (h : ∃ i < solver.qubo.num_x, node.fixed_variables i = none) :
    node.fixed_variables (worst_approximation solver node) = none ∧
    worst_approximation solver node < solver.qubo.num_x ∧
    (∀ j < solver.qubo.num_x, node.fixed_variables j = none →
      min ((compute_strong_branch solver node).1 j) ((compute_strong_branch solver node).2 j)
        ≤ min ((compute_strong_branch solver node).1 (worst_approximation solver node))
            ((compute_strong_branch solver node).2 (worst_approximation solver node))) ∧
    (∀ j < worst_approximation solver node, node.fixed_variables j = none →
      min ((compute_strong_branch solver node).1 j) ((compute_strong_branch solver node).2 j)
        < min ((compute_strong_branch solver node).1 (worst_approximation solver node))
            ((compute_strong_branch solver node).2 (worst_approximation solver node))) := by
  obtain ⟨i0, hi0n, hi0u⟩ := h
  rcases wa_fold_spec node (compute_strong_branch solver node).1
      (compute_strong_branch solver node).2 solver.qubo.num_x with ⟨hst, hall⟩ |
    ⟨b, idx, hst, hunf, hlt, hkey, hmax, hfirst⟩
  · have := hall i0 hi0n
    rw [hi0u] at this
    simp at this
  · have hres : worst_approximation solver node = idx := by
      simp only [worst_approximation]
      rw [hst]
    rw [hres]
    refine ⟨hunf, hlt, fun j hj hju => ?_, fun j hj hju => ?_⟩
    · rw [hkey]; exact hmax j hj hju
    · rw [hkey]; exact hfirst j hj hju

lemma best_approximation_spec (solver : BBSolver) (node : QuboBBNode)
    (h : ∃ i < solver.qubo.num_x, node.fixed_variables i = none) :
    node.fixed_variables (best_approximation solver node) = none ∧
    best_approximation solver node < solver.qubo.num_x ∧
    (∀ j < solver.qubo.num_x, node.fixed_variables j = none →
      max ((compute_strong_branch solver node).1 (best_approximation solver node))
          ((compute_strong_branch solver node).2 (best_approximation solver node))
        ≤ max ((compute_strong_branch solver node).1 j)
            ((compute_strong_branch solver node).2 j)) ∧
    (∀ j, best_approximation solver node < j → j < solver.qubo.num_x →
      node.fixed_variables j = none →
      max ((compute_strong_branch solver node).1 (best_approximation solver node))
          ((compute_strong_branch solver node).2 (best_approximation solver node))
        < max ((compute_strong_branch solver node).1 j)
            ((compute_strong_branch solver node).2 j)) := by
  obtain ⟨i0, hi0n, hi0u⟩ := h
  rcases ba_fold_spec node (compute_strong_branch solver node).1
      (compute_strong_branch solver node).2 solver.qubo.num_x with ⟨hst, hall⟩ |
    ⟨b, idx, hst, hunf, hlt, hkey, hmin, hlast⟩
  · have := hall i0 hi0n
    rw [hi0u] at this
    simp at this
  · have hres : best_approximation solver node = idx := by
      simp only [best_approximation]
      rw [hst]
    rw [hres]
    refine ⟨hunf, hlt, fun j hj hju => ?_, fun j hj hj' hju => ?_⟩
    · rw [hkey]; exact hmin j hj hju
    · rw [hkey]; exact hlast j hj hj' hju

/-! ### The claims -/

/-- Claim C1 (amended). On a node whose `fixed_variables` covers all of
`[0, n)` (with `n > 0`), only `FirstNotFixed` and `Random` fail, with the
`panic!("No variable to branch on")` panic (the code has no
`ExhaustedBranchSpace` error value); `MostViolated`, `WorstApproximation`
and `BestApproximation` do not fail: each silently returns the initial
index `0`. -/
theorem claim_C1_thm (gen_u64 : ℕ → ℕ) (solver : BBSolver) (node : QuboBBNode)
    (hn : 0 < solver.qubo.num_x)
    (hfull : ∀ i < solver.qubo.num_x, (node.fixed_variables i).isSome) :
    first_not_fixed solver node = Except.error RustPanic.noVariableToBranchOn ∧
    random gen_u64 solver node = Except.error RustPanic.noVariableToBranchOn ∧
    most_violated solver node = 0 ∧
    worst_approximation solver node = 0 ∧
    best_approximation solver node = 0 := by
  have hrange : ∀ i ∈ List.range solver.qubo.num_x, (node.fixed_variables i).isSome :=
    fun i hi => hfull i (List.mem_range.mp hi)
  refine ⟨?_, random_all_fixed gen_u64 solver node (Nat.pos_iff_ne_zero.mp hn) hfull,
    ?_, ?_, ?_⟩
  · rw [first_not_fixed,
      List.find?_eq_none.mpr (fun i hi => not_isNone_of_isSome (hrange i hi))]
  · rw [most_violated,
      foldl_fixed_eq node (mv_step node) (mv_step_fixed node) _ hrange ((1 : ℚ), (0 : ℕ))]
  · simp only [worst_approximation]
    rw [foldl_fixed_eq node _ (wa_step_fixed node _ _) _ hrange none]
  · simp only [best_approximation]
    rw [foldl_fixed_eq node _ (ba_step_fixed node _ _) _ hrange none]

/-- Claim C1 counterexample. On a one-variable node with variable `0`
fixed, `most_violated` does not fail: it returns the index `0` as a normal
value (its Rust signature `-> usize` has no failure path), contradicting
the claim that every strategy fails with `ExhaustedBranchSpace` rather
than returning an index. -/
theorem claim_C1_counterexample :
    (∀ i < (mkSolver (zeroQubo 1)).qubo.num_x, (fullNode.fixed_variables i).isSome) ∧
    most_violated (mkSolver (zeroQubo 1)) fullNode = 0 := by
  constructor
  · intro i _
    simp [fullNode]
  · norm_num [most_violated, mv_step, Qubo.num_x, mkSolver, zeroQubo, fullNode,
      List.range_succ]

/-- Claim C1 witness: the amended theorem applied to the concrete fully
fixed one-variable node. -/
theorem claim_C1_witness :
    (0 < (mkSolver (zeroQubo 1)).qubo.num_x ∧
      ∀ i < (mkSolver (zeroQubo 1)).qubo.num_x, (fullNode.fixed_variables i).isSome) ∧
    first_not_fixed (mkSolver (zeroQubo 1)) fullNode
      = Except.error RustPanic.noVariableToBranchOn := by
  have h1 : 0 < (mkSolver (zeroQubo 1)).qubo.num_x := by
    norm_num [mkSolver, zeroQubo, Qubo.num_x]
  have h2 : ∀ i < (mkSolver (zeroQubo 1)).qubo.num_x, (fullNode.fixed_variables i).isSome :=
    fun i _ => by simp [fullNode]
  exact ⟨⟨h1, h2⟩, (claim_C1_thm (fun _ => 0) (mkSolver (zeroQubo 1)) fullNode h1 h2).1⟩

/-- Claim C4 (amended). Provided at least one unfixed index has violation
`|solution i - 0.5| ≤ 1` (the scan's initial threshold — always true for
solutions in `[0, 1]`, but not for arbitrary finite entries),
`most_violated` returns an unfixed index in `[0, n)` of minimal violation
among all unfixed indices, the last such index in scan order; and on
`solution = [0.1, 0.5, 0.9]` with no fixed variables it returns `1`. -/
theorem claim_C4_thm (solver : BBSolver) (node : QuboBBNode)
    (h : ∃ i < solver.qubo.num_x, node.fixed_variables i = none ∧
      |node.solution i - 1/2| ≤ 1) :
    (node.fixed_variables (most_violated solver node) = none ∧
      most_violated solver node < solver.qubo.num_x ∧
      (∀ j < solver.qubo.num_x, node.fixed_variables j = none →
        |node.solution (most_violated solver node) - 1/2| ≤ |node.solution j - 1/2|) ∧
      (∀ j, most_violated solver node < j → j < solver.qubo.num_x →
        node.fixed_variables j = none →
        |node.solution (most_violated solver node) - 1/2| < |node.solution j - 1/2|)) ∧
    most_violated (mkSolver (zeroQubo 3)) mvExampleNode = 1 := by
  constructor
  · exact most_violated_spec solver node h
  · norm_num [most_violated, mv_step, Qubo.num_x, mkSolver, zeroQubo, mvExampleNode,
      List.range_succ, abs_of_nonneg, abs_of_nonpos]

/-- Claim C4 counterexample. On `solution = [10, 2]` with no fixed
variables (finite entries), `most_violated` returns `0`, although the
unfixed index `1` has strictly smaller violation: the returned index does
not minimize `|solution[i] - 0.5|` among unfixed indices. -/
theorem claim_C4_counterexample :
    most_violated (mkSolver (zeroQubo 2)) mvBadNode = 0 ∧
    mvBadNode.fixed_variables 0 = none ∧ mvBadNode.fixed_variables 1 = none ∧
    (1 : ℕ) < (mkSolver (zeroQubo 2)).qubo.num_x ∧
    |mvBadNode.solution 1 - 1/2| < |mvBadNode.solution 0 - 1/2| := by
  refine ⟨?_, by simp [mvBadNode], by simp [mvBadNode],
    by norm_num [mkSolver, zeroQubo, Qubo.num_x], ?_⟩
  · norm_num [most_violated, mv_step, Qubo.num_x, mkSolver, zeroQubo, mvBadNode,
      List.range_succ, abs_of_nonneg, abs_of_nonpos]
  · norm_num [mvBadNode, abs_of_nonneg]

/-- Claim C4 witness: the amended theorem applied to the `[0.1, 0.5, 0.9]`
example node. -/
theorem claim_C4_witness :
    (∃ i < (mkSolver (zeroQubo 3)).qubo.num_x, mvExampleNode.fixed_variables i = none ∧
      |mvExampleNode.solution i - 1/2| ≤ 1) ∧
    mvExampleNode.fixed_variables (most_violated (mkSolver (zeroQubo 3)) mvExampleNode)
      = none := by
  have hyp : ∃ i < (mkSolver (zeroQubo 3)).qubo.num_x,
      mvExampleNode.fixed_variables i = none ∧ |mvExampleNode.solution i - 1/2| ≤ 1 := by
    refine ⟨1, by norm_num [mkSolver, zeroQubo, Qubo.num_x], by simp [mvExampleNode], ?_⟩
    norm_num [mvExampleNode]
  exact ⟨hyp, (claim_C4_thm (mkSolver (zeroQubo 3)) mvExampleNode hyp).1.1⟩

/-- Claim C3 (amended). On a node with at least one unfixed variable,
`FirstNotFixed`, `Random`, `WorstApproximation` and `BestApproximation`
return an index in `[0, n)` that is not a key of `fixed_variables`;
`MostViolated` does so provided additionally some unfixed index has
violation `|solution i - 0.5| ≤ 1` (otherwise it can return a fixed
index, see the counterexample). -/
theorem claim_C3_thm (gen_u64 : ℕ → ℕ) (solver : BBSolver) (node : QuboBBNode)
    (h : ∃ i < solver.qubo.num_x, node.fixed_variables i = none) :
    (∃ r, first_not_fixed solver node = Except.ok r ∧ r < solver.qubo.num_x ∧
      node.fixed_variables r = none) ∧
    (∃ r, random gen_u64 solver node = Except.ok r ∧ r < solver.qubo.num_x ∧
      node.fixed_variables r = none) ∧
    ((∃ i < solver.qubo.num_x, node.fixed_variables i = none ∧
        |node.solution i - 1/2| ≤ 1) →
      most_violated solver node < solver.qubo.num_x ∧
      node.fixed_variables (most_violated solver node) = none) ∧
    (worst_approximation solver node < solver.qubo.num_x ∧
      node.fixed_variables (worst_approximation solver node) = none) ∧
    (best_approximation solver node < solver.qubo.num_x ∧
      node.fixed_variables (best_approximation solver node) = none) :=
  ⟨first_not_fixed_finds solver node h, random_finds_unfixed gen_u64 solver node h,
    fun hmv =>
      ⟨(most_violated_spec solver node hmv).2.1, (most_violated_spec solver node hmv).1⟩,
    ⟨(worst_approximation_spec solver node h).2.1, (worst_approximation_spec solver node h).1⟩,
    ⟨(best_approximation_spec solver node h).2.1, (best_approximation_spec solver node h).1⟩⟩

/-- Claim C3 counterexample. Two variables, variable `0` fixed, the only
unfixed variable at `solution = 10` (finite): `most_violated` returns `0`,
which is a key of `fixed_variables`, although an unfixed variable exists. -/
theorem claim_C3_counterexample :
    most_violated (mkSolver (zeroQubo 2)) c3BadNode = 0 ∧
    c3BadNode.fixed_variables 0 = some 1 ∧
    c3BadNode.fixed_variables 1 = none ∧
    (1 : ℕ) < (mkSolver (zeroQubo 2)).qubo.num_x := by
  refine ⟨?_, by simp [c3BadNode], by simp [c3BadNode],
    by norm_num [mkSolver, zeroQubo, Qubo.num_x]⟩
  norm_num [most_violated, mv_step, Qubo.num_x, mkSolver, zeroQubo, c3BadNode,
    List.range_succ, abs_of_nonneg, abs_of_nonpos]

/-- Claim C3 witness: the amended theorem applied to a two-variable node
with variable `0` fixed and variable `1` unfixed at `solution = 1/4`. -/
theorem claim_C3_witness :
    (∃ i < (mkSolver (zeroQubo 2)).qubo.num_x, randExampleNode.fixed_variables i = none) ∧
    (∃ r, random (fun _ => 0) (mkSolver (zeroQubo 2)) randExampleNode = Except.ok r ∧
      r < (mkSolver (zeroQubo 2)).qubo.num_x ∧
      randExampleNode.fixed_variables r = none) ∧
    (∃ i < (mkSolver (zeroQubo 2)).qubo.num_x, randExampleNode.fixed_variables i = none ∧
      |randExampleNode.solution i - 1/2| ≤ 1) ∧
    (most_violated (mkSolver (zeroQubo 2)) randExampleNode
        < (mkSolver (zeroQubo 2)).qubo.num_x ∧
      randExampleNode.fixed_variables
        (most_violated (mkSolver (zeroQubo 2)) randExampleNode) = none) := by
  have h : ∃ i < (mkSolver (zeroQubo 2)).qubo.num_x,
      randExampleNode.fixed_variables i = none :=
    ⟨1, by norm_num [mkSolver, zeroQubo, Qubo.num_x], by simp [randExampleNode]⟩
  have hmv : ∃ i < (mkSolver (zeroQubo 2)).qubo.num_x,
      randExampleNode.fixed_variables i = none ∧
      |randExampleNode.solution i - 1/2| ≤ 1 := by
    refine ⟨1, by norm_num [mkSolver, zeroQubo, Qubo.num_x], by simp [randExampleNode], ?_⟩
    norm_num [randExampleNode, abs_of_nonpos]
  have hthm := claim_C3_thm (fun _ => 0) (mkSolver (zeroQubo 2)) randExampleNode h
  exact ⟨h, hthm.2.1, hmv, hthm.2.2.1 hmv⟩

/-- Claim C5 (confirmed). On a node with at least one unfixed variable,
`worst_approximation` returns an unfixed index in `[0, n)` that maximizes
`min(zero_flip[i], one_flip[i])` over the unfixed indices, and the
strict-greater update makes it the first index attaining that maximum
(every earlier unfixed index has a strictly smaller key). -/
theorem claim_C5_thm (solver : BBSolver) (node : QuboBBNode)
    (h : ∃ i < solver.qubo.num_x, node.fixed_variables i = none) :
    node.fixed_variables (worst_approximation solver node) = none ∧
    worst_approximation solver node < solver.qubo.num_x ∧
    (∀ j < solver.qubo.num_x, node.fixed_variables j = none →
      min ((compute_strong_branch solver node).1 j) ((compute_strong_branch solver node).2 j)
        ≤ min ((compute_strong_branch solver node).1 (worst_approximation solver node))
            ((compute_strong_branch solver node).2 (worst_approximation solver node))) ∧
    (∀ j < worst_approximation solver node, node.fixed_variables j = none →
      min ((compute_strong_branch solver node).1 j) ((compute_strong_branch solver node).2 j)
        < min ((compute_strong_branch solver node).1 (worst_approximation solver node))
            ((compute_strong_branch solver node).2 (worst_approximation solver node))) :=
  worst_approximation_spec solver node h

/-- Claim C5 witness: the theorem applied to the two-variable problem
`Q = [[1, 0], [0, 3]]` at `solution = [1/2, 1/2]`, no fixed variables. -/
theorem claim_C5_witness :
    (∃ i < (mkSolver saExampleQubo).qubo.num_x,
      saExampleNode.fixed_variables i = none) ∧
    saExampleNode.fixed_variables
      (worst_approximation (mkSolver saExampleQubo) saExampleNode) = none := by
  have h : ∃ i < (mkSolver saExampleQubo).qubo.num_x,
      saExampleNode.fixed_variables i = none :=
    ⟨0, by norm_num [mkSolver, saExampleQubo, Qubo.num_x], by simp [saExampleNode]⟩
  exact ⟨h, (claim_C5_thm (mkSolver saExampleQubo) saExampleNode h).1⟩

/-- Claim C6 (confirmed). On a node with at least one unfixed variable,
`best_approximation` returns an unfixed index in `[0, n)` that minimizes
`max(zero_flip[i], one_flip[i])` over the unfixed indices, and the `≤`
update makes it the last index attaining that minimum (every later unfixed
index has a strictly larger key). -/
theorem claim_C6_thm (solver : BBSolver) (node : QuboBBNode)
    (h : ∃ i < solver.qubo.num_x, node.fixed_variables i = none) :
    node.fixed_variables (best_approximation solver node) = none ∧
    best_approximation solver node < solver.qubo.num_x ∧
    (∀ j < solver.qubo.num_x, node.fixed_variables j = none →
      max ((compute_strong_branch solver node).1 (best_approximation solver node))
          ((compute_strong_branch solver node).2 (best_approximation solver node))
        ≤ max ((compute_strong_branch solver node).1 j)
            ((compute_strong_branch solver node).2 j)) ∧
    (∀ j, best_approximation solver node < j → j < solver.qubo.num_x →
      node.fixed_variables j = none →
      max ((compute_strong_branch solver node).1 (best_approximation solver node))
          ((compute_strong_branch solver node).2 (best_approximation solver node))
        < max ((compute_strong_branch solver node).1 j)
            ((compute_strong_branch solver node).2 j)) :=
  best_approximation_spec solver node h

/-- Claim C6 witness: the theorem applied to the two-variable problem
`Q = [[1, 0], [0, 3]]` at `solution = [1/2, 1/2]`, no fixed variables. -/
theorem claim_C6_witness :
    (∃ i < (mkSolver saExampleQubo).qubo.num_x,
      saExampleNode.fixed_variables i = none) ∧
    saExampleNode.fixed_variables
      (best_approximation (mkSolver saExampleQubo) saExampleNode) = none := by
  have h : ∃ i < (mkSolver saExampleQubo).qubo.num_x,
      saExampleNode.fixed_variables i = none :=
    ⟨0, by norm_num [mkSolver, saExampleQubo, Qubo.num_x], by simp [saExampleNode]⟩
  exact ⟨h, (claim_C6_thm (mkSolver saExampleQubo) saExampleNode h).1⟩

/-- Claim C2 (amended). The strong-branch value for each index `i < n` and
each `d ∈ {-x[i], 1-x[i]}` (with `x` the base vector built from
`fixed_variables` and `solution`) is the exact change in
`½·xᵀQx + cᵀx` — not in `xᵀQx + cᵀx` as the claim stated — caused by
perturbing coordinate `i` of `x` by `d`. -/
theorem claim_C2_thm (solver : BBSolver) (node : QuboBBNode) (i : ℕ)
    (hi : i < solver.qubo.num_x) :
    (compute_strong_branch solver node).1 i
      = halfObjective solver.qubo
          (perturb (base_solution node) i (-(base_solution node i)))
        - halfObjective solver.qubo (base_solution node) ∧
    (compute_strong_branch solver node).2 i
      = halfObjective solver.qubo
          (perturb (base_solution node) i (1 - base_solution node i))
        - halfObjective solver.qubo (base_solution node) := by
  constructor <;>
  · rw [halfObjective_perturb solver.qubo (base_solution node) i hi]
    simp only [compute_strong_branch, Qubo.num_x]

/-- Claim C2 counterexample. For `Q = [[2]]`, `c = [0]`, `x = [1]` and the
zero flip `d = -1`, the code's value is `-1`, while the exact change in
the claimed objective `xᵀQx + cᵀx` is `0 - 2 = -2`. -/
theorem claim_C2_counterexample :
    (compute_strong_branch (mkSolver c2ExampleQubo) c2ExampleNode).1 0
      ≠ specObjective (mkSolver c2ExampleQubo).qubo
          (perturb (base_solution c2ExampleNode) 0 (-(base_solution c2ExampleNode 0)))
        - specObjective (mkSolver c2ExampleQubo).qubo (base_solution c2ExampleNode) := by
  norm_num [compute_strong_branch, base_solution, specObjective, perturb, Qubo.num_x,
    mkSolver, c2ExampleQubo, c2ExampleNode, Finset.sum_range_succ]

/-- Claim C2 witness: the amended theorem applied to the one-variable
instance `Q = [[2]]`, `x = [1]`. -/
theorem claim_C2_witness :
    0 < (mkSolver c2ExampleQubo).qubo.num_x ∧
    (compute_strong_branch (mkSolver c2ExampleQubo) c2ExampleNode).1 0
      = halfObjective (mkSolver c2ExampleQubo).qubo
          (perturb (base_solution c2ExampleNode) 0 (-(base_solution c2ExampleNode 0)))
        - halfObjective (mkSolver c2ExampleQubo).qubo (base_solution c2ExampleNode) := by
  have h : 0 < (mkSolver c2ExampleQubo).qubo.num_x := by
    norm_num [mkSolver, c2ExampleQubo, Qubo.num_x]
  exact ⟨h, (claim_C2_thm (mkSolver c2ExampleQubo) c2ExampleNode 0 h).1⟩

/-- The circular scan order `start, start+1, …` mod `n` is exactly the two
ranges `[start, n)` and `[0, start)` concatenated. -/
lemma range_map_rotation (n s : ℕ) (hs : s < n) :
    (List.range n).map (fun k => (s + k) % n) = List.range' s (n - s) ++ List.range s := by
  apply List.ext_getElem
  · simp [List.length_range, List.length_range', List.length_append]
    omega
  · intro k hk1 hk2
    rw [List.getElem_map, List.getElem_range]
    by_cases h : k < n - s
    · rw [List.getElem_append_left (by simpa [List.length_range'] using h),
        List.getElem_range']
      have hmod : (s + k) % n = s + k := Nat.mod_eq_of_lt (by omega)
      rw [hmod]
      ring
    · rw [List.getElem_append_right (by simp [List.length_range']; omega)]
      simp only [List.length_range', List.getElem_range]
      have h1 : n ≤ s + k := by omega
      have hlt2 : s + k - n < n := by
        simp [List.length_range, List.length_map] at hk1
        omega
      rw [Nat.mod_eq_sub_mod h1, Nat.mod_eq_of_lt hlt2]
      omega

/-- Claim C7 (confirmed). `random` seeds the PRNG with
`seed + nodes_visited`, draws one integer, reduces it mod `n` to a start
index, and returns the first unfixed index of the circular scan
`[start, n)` then `[0, start)`; and it is deterministic: two contexts with
the same seed, the same `nodes_visited` and the same dimension yield the
same result on the same node. -/
theorem claim_C7_thm (gen_u64 : ℕ → ℕ) (solver s2 : BBSolver) (node : QuboBBNode)
    (hn : 0 < solver.qubo.num_x) :
    random gen_u64 solver node = circular_first_unfixed gen_u64 solver node ∧
    (solver.options.seed = s2.options.seed → solver.nodes_visited = s2.nodes_visited →
      solver.qubo.num_x = s2.qubo.num_x →
      random gen_u64 solver node = random gen_u64 s2 node) := by
  constructor
  · have hne : solver.qubo.num_x ≠ 0 := Nat.pos_iff_ne_zero.mp hn
    simp only [random, circular_first_unfixed]
    rw [if_neg hne]
    set start := gen_u64 (solver.options.seed + solver.nodes_visited) % solver.qubo.num_x
      with hs
    have hslt : start < solver.qubo.num_x := Nat.mod_lt _ hn
    rw [range_map_rotation solver.qubo.num_x start hslt, List.find?_append]
    cases h1 : (List.range' start (solver.qubo.num_x - start)).find?
        (fun i => (node.fixed_variables i).isNone) with
    | some r => rfl
    | none =>
      cases h2 : (List.range start).find? (fun i => (node.fixed_variables i).isNone) with
      | some r => rfl
      | none => rfl
  · intro h1 h2 h3
    simp only [random, h1, h2, h3]

/-- Claim C7 witness: the theorem applied to a concrete two-variable node,
with a second context differing only in `max_time` and `branch_strategy`. -/
theorem claim_C7_witness :
    0 < (mkSolver (zeroQubo 2)).qubo.num_x ∧
    random (fun _ => 5) (mkSolver (zeroQubo 2)) randExampleNode
      = circular_first_unfixed (fun _ => 5) (mkSolver (zeroQubo 2)) randExampleNode ∧
    random (fun _ => 5) (mkSolver (zeroQubo 2)) randExampleNode
      = random (fun _ => 5) altSolver2 randExampleNode := by
  have h : 0 < (mkSolver (zeroQubo 2)).qubo.num_x := by
    norm_num [mkSolver, zeroQubo, Qubo.num_x]
  have hthm := claim_C7_thm (fun _ => 5) (mkSolver (zeroQubo 2)) altSolver2
    randExampleNode h
  exact ⟨h, hthm.1, hthm.2 rfl rfl rfl⟩

/-- Claim C9 (confirmed). The random binary point has length `n`, every
entry is `0` or `1`; with `sparsity = 1` every entry is `1` and with
`sparsity = 0` every entry is `0`, for any PRNG stream within the
unit-interval contract `[0, 1)`. -/
theorem claim_C9_thm (n : ℕ) (prng : ℕ → ℚ) (sparsity : ℚ)
    (hprng : ∀ k, 0 ≤ prng k ∧ prng k < 1) :
    (generate_random_binary_point n prng sparsity).length = n ∧
    (∀ v ∈ generate_random_binary_point n prng sparsity, v = 0 ∨ v = 1) ∧
    (∀ v ∈ generate_random_binary_point n prng 1, v = 1) ∧
    (∀ v ∈ generate_random_binary_point n prng 0, v = 0) := by
  refine ⟨by simp [generate_random_binary_point], ?_, ?_, ?_⟩
  · intro v hv
    simp only [generate_random_binary_point, List.mem_map] at hv
    obtain ⟨i, _, hi⟩ := hv
    by_cases h : prng i < sparsity
    · right; rw [← hi, if_pos h]
    · left; rw [← hi, if_neg h]
  · intro v hv
    simp only [generate_random_binary_point, List.mem_map] at hv
    obtain ⟨i, _, hi⟩ := hv
    rw [← hi, if_pos (hprng i).2]
  · intro v hv
    simp only [generate_random_binary_point, List.mem_map] at hv
    obtain ⟨i, _, hi⟩ := hv
    rw [← hi, if_neg (not_lt.mpr (hprng i).1)]

/-- Claim C9 witness: the theorem applied to `n = 3` and the constant
stream `1/2`. -/
theorem claim_C9_witness :
    (∀ k : ℕ, 0 ≤ (fun _ : ℕ => (1 : ℚ)/2) k ∧ (fun _ : ℕ => (1 : ℚ)/2) k < 1) ∧
    (generate_random_binary_point 3 (fun _ => 1/2) (1/2)).length = 3 := by
  have h : ∀ k : ℕ, 0 ≤ (fun _ : ℕ => (1 : ℚ)/2) k ∧ (fun _ : ℕ => (1 : ℚ)/2) k < 1 :=
    fun k => ⟨by norm_num, by norm_num⟩
  exact ⟨h, (claim_C9_thm 3 (fun _ => 1/2) (1/2) h).1⟩

/-- Claim C10 (confirmed). With `n = 0`, `random` fails through the
unguarded `gen_u64() % n` remainder (Rust panics on a zero divisor) before
any scan, a failure distinct from the `panic!("No variable to branch on")`
raised on a fully fixed node with `n > 0`. -/
theorem claim_C10_thm (gen_u64 : ℕ → ℕ) (solver : BBSolver) (node : QuboBBNode) :
    (solver.qubo.num_x = 0 →
      random gen_u64 solver node = Except.error RustPanic.remainderByZero) ∧
    (0 < solver.qubo.num_x →
      (∀ i < solver.qubo.num_x, (node.fixed_variables i).isSome) →
      random gen_u64 solver node = Except.error RustPanic.noVariableToBranchOn) ∧
    RustPanic.remainderByZero ≠ RustPanic.noVariableToBranchOn := by
  refine ⟨fun h0 => ?_,
    fun hn hfull => random_all_fixed gen_u64 solver node (Nat.pos_iff_ne_zero.mp hn) hfull,
    fun h => RustPanic.noConfusion h⟩
  rw [random, if_pos h0]

/-! ### Sparse round-trip lemmas (claim C8) -/

lemma getD_map_range {α : Type} (n c : ℕ) (f : ℕ → α) (d : α) :
    ((List.range n).map f).getD c d = if c < n then f c else d := by
  by_cases h : c < n
  · rw [if_pos h, List.getD_eq_getElem?_getD, List.getElem?_map, List.getElem?_range h]
    rfl
  · rw [if_neg h, List.getD_eq_getElem?_getD,
      List.getElem?_eq_none (by simp only [List.length_map, List.length_range]; omega)]
    rfl

/-- Slicing a concatenation at the accumulated lengths of its first `c`
components recovers component `c`. -/
lemma flatten_drop_take {α : Type} (ls : List (List α)) (c : ℕ) (hc : c < ls.length) :
    (ls.flatten.drop (((ls.take c).map List.length).sum)).take (ls.getD c []).length
      = ls.getD c [] := by
  induction ls generalizing c with
  | nil => simp at hc
  | cons a t ih =>
    cases c with
    | zero =>
      simp only [List.take_zero, List.map_nil, List.sum_nil, List.drop_zero,
        List.getD_cons_zero, List.flatten_cons]
      exact List.take_left a t.flatten
    | succ c' =>
      simp only [List.take_succ_cons, List.map_cons, List.sum_cons, List.getD_cons_succ,
        List.flatten_cons]
      rw [← List.drop_drop, List.drop_left]
      exact ih c' (by simpa using hc)

/-- `find?` by key over a list of keyed entries built by `filterMap`. -/
lemma find?_filterMap_keyed {β : Type} (g : ℕ → Option β) (r : ℕ) (l : List ℕ) :
    ((l.filterMap (fun i => (g i).map (fun v => (i, v)))).find? (fun e => e.1 == r))
      = if r ∈ l then (g r).map (fun v => (r, v)) else none := by
  induction l with
  | nil => simp
  | cons a t ih =>
    rw [List.filterMap_cons]
    cases hga : g a with
    | none =>
      simp only [hga, Option.map_none']
      rw [ih]
      by_cases har : r = a
      · subst har
        simp [hga]
      · simp [List.mem_cons, har]
    | some v =>
      simp only [hga, Option.map_some']
      rw [List.find?_cons]
      by_cases har : a = r
      · subst har
        simp [hga]
      · have hbeq : (((a, v) : ℕ × β).1 == r) = false := by
          simp [har]
        rw [hbeq, ih]
        have har' : ¬ r = a := fun h => har h.symm
        simp [List.mem_cons, har']

lemma cscColLists_length (m : CsMat) : (cscColLists m).length = m.cols := by
  simp [cscColLists]

lemma cscColLists_getD (m : CsMat) (c : ℕ) (hc : c < m.cols) :
    (cscColLists m).getD c [] = to_csc_col m c := by
  rw [cscColLists, getD_map_range, if_pos hc]

lemma to_csc_colptr_getD (m : CsMat) (j : ℕ) (hj : j ≤ m.cols) :
    (to_csc m).1.getD j 0 = (((cscColLists m).take j).map List.length).sum := by
  simp only [to_csc]
  rw [getD_map_range, if_pos (by omega)]

lemma to_csc_colptr_oob (m : CsMat) (j : ℕ) (hj : m.cols + 1 ≤ j) :
    (to_csc m).1.getD j 0 = 0 := by
  simp only [to_csc]
  rw [getD_map_range, if_neg (by omega)]

lemma colptr_sum_succ (m : CsMat) (c : ℕ) (hc : c < m.cols) :
    (((cscColLists m).take (c + 1)).map List.length).sum
      = (((cscColLists m).take c).map List.length).sum + (to_csc_col m c).length := by
  rw [List.take_succ]
  have h : (cscColLists m)[c]? = some (to_csc_col m c) := by
    rw [cscColLists, List.getElem?_map, List.getElem?_range hc]
    rfl
  rw [h]
  simp

lemma to_csc_col_find? (m : CsMat) (c r : ℕ) :
    ((to_csc_col m c).find? (fun e => e.1 == r))
      = if r < m.rows then (m.get? r c).map (fun v => (r, v)) else none := by
  rw [to_csc_col, find?_filterMap_keyed]
  by_cases h : r < m.rows <;> simp [List.mem_range, h]

/-- A CSR lookup below the stored rows is `none` (the row slice is empty). -/
lemma CsMat.get?_row_oob (m : CsMat) (hlen : m.indptr.length = m.rows + 1) (r c : ℕ)
    (hr : m.rows ≤ r) : m.get? r c = none := by
  have hhi : m.indptr.getD (r + 1) 0 = 0 :=
    List.getD_eq_default _ _ (by omega)
  simp only [CsMat.get?]
  rw [hhi, Nat.zero_sub]
  rfl

/-- A CSR lookup at a column index at or beyond `cols` is `none` when all
stored column indices are below `cols`. -/
lemma CsMat.get?_col_oob (m : CsMat) (hidx : ∀ x ∈ m.indices, x < m.cols) (r c : ℕ)
    (hc : m.cols ≤ c) : m.get? r c = none := by
  simp only [CsMat.get?]
  have hfind : ((((m.indices.zip m.data).drop (m.indptr.getD r 0)).take
      (m.indptr.getD (r + 1) 0 - m.indptr.getD r 0)).find? (fun e => e.1 == c)) = none := by
    refine List.find?_eq_none.mpr ?_
    rintro ⟨x, v⟩ he
    have hx : x ∈ m.indices :=
      (List.of_mem_zip (List.mem_of_mem_drop (List.mem_of_mem_take he))).1
    have := hidx x hx
    simp only [beq_iff_eq]
    omega
  rw [hfind]
  rfl

/-- A compressed-column lookup in the converted matrix at a column index at
or beyond `cols` is `none`. -/
lemma make_cb_form_get?_col_oob (p0 : CsMat) (r c : ℕ) (hc : p0.cols ≤ c) :
    (ClarabelWrapper.make_cb_form p0).get? r c = none := by
  simp only [CscMatrix.get?, ClarabelWrapper.make_cb_form, CscMatrix.new]
  have hhi : (to_csc p0).1.getD (c + 1) 0 = 0 := to_csc_colptr_oob p0 (c + 1) (by omega)
  rw [hhi]
  simp

/-- The converted matrix stores exactly the entries of the original:
`get?` agrees everywhere. -/
lemma make_cb_form_get? (p0 : CsMat) (hlen : p0.indptr.length = p0.rows + 1)
    (hidx : ∀ x ∈ p0.indices, x < p0.cols) (r c : ℕ) :
    (ClarabelWrapper.make_cb_form p0).get? r c = p0.get? r c := by
  by_cases hc : c < p0.cols
  · simp only [CscMatrix.get?, ClarabelWrapper.make_cb_form, CscMatrix.new]
    have hzip : ((to_csc p0).2.1.zip (to_csc p0).2.2) = (cscColLists p0).flatten := by
      simp only [to_csc]
      rw [List.zip_map']
      simp
    rw [hzip, to_csc_colptr_getD p0 c (le_of_lt hc), to_csc_colptr_getD p0 (c + 1) (by omega),
      colptr_sum_succ p0 c hc]
    have hdt := flatten_drop_take (cscColLists p0) c
      (by rw [cscColLists_length]; exact hc)
    rw [cscColLists_getD p0 c hc] at hdt
    have harith : (((cscColLists p0).take c).map List.length).sum + (to_csc_col p0 c).length
        - (((cscColLists p0).take c).map List.length).sum = (to_csc_col p0 c).length := by
      omega
    rw [harith, hdt, to_csc_col_find?]
    by_cases hr : r < p0.rows
    · rw [if_pos hr]
      cases hg : p0.get? r c <;> simp [hg]
    · rw [if_neg hr, CsMat.get?_row_oob p0 hlen r c (le_of_not_lt hr)]
      rfl
  · rw [make_cb_form_get?_col_oob p0 r c (le_of_not_lt hc),
      CsMat.get?_col_oob p0 hidx r c (le_of_not_lt hc)]

/-- Claim C8 (confirmed). Converting a well-formed CSR matrix with
`make_cb_form` preserves the row count, the column count and every stored
entry (position and exact value), and `ClarabelWrapper::new` passes the
linear term `c` through unchanged. -/
theorem claim_C8_thm (p0 : CsMat) (hwf : p0.WF) :
    (ClarabelWrapper.make_cb_form p0).m = p0.rows ∧
    (ClarabelWrapper.make_cb_form p0).n = p0.cols ∧
    (∀ r c, (ClarabelWrapper.make_cb_form p0).get? r c = p0.get? r c) ∧
    (∀ lin : ℕ → ℚ, (ClarabelWrapper.new ⟨p0, lin⟩).c = lin ∧
      (ClarabelWrapper.new ⟨p0, lin⟩).q = ClarabelWrapper.make_cb_form p0) := by
  obtain ⟨hlen, _, _, _, _, hidx, _⟩ := hwf
  exact ⟨rfl, rfl, make_cb_form_get? p0 hlen hidx, fun lin => ⟨rfl, rfl⟩⟩

/-- Claim C8 witness: the theorem applied to the CSR matrix
`[[1, 0], [2, 3]]`, with the converted entries read back. -/
theorem claim_C8_witness :
    exampleCsr.WF ∧
    (ClarabelWrapper.make_cb_form exampleCsr).m = exampleCsr.rows ∧
    (ClarabelWrapper.make_cb_form exampleCsr).get? 1 0 = exampleCsr.get? 1 0 := by
  have hwf : exampleCsr.WF := by
    refine ⟨rfl, rfl, rfl, rfl, ?_, ?_, ?_⟩
    · intro r hr
      simp only [exampleCsr] at hr
      interval_cases r <;> simp [exampleCsr]
    · intro x hx
      simp only [exampleCsr, List.mem_cons, List.not_mem_nil, or_false] at hx
      simp only [exampleCsr]
      rcases hx with h | h | h <;> omega
    · intro r hr
      simp only [exampleCsr] at hr
      interval_cases r <;> simp [exampleCsr]
  exact ⟨hwf, (claim_C8_thm exampleCsr hwf).1, (claim_C8_thm exampleCsr hwf).2.2.1 1 0⟩

/-- Claim C10 witness: the theorem applied to a zero-variable problem. -/
theorem claim_C10_witness :
    (mkSolver (zeroQubo 0)).qubo.num_x = 0 ∧
    random (fun _ => 5) (mkSolver (zeroQubo 0)) fullNode
      = Except.error RustPanic.remainderByZero := by
  have h : (mkSolver (zeroQubo 0)).qubo.num_x = 0 := rfl
  exact ⟨h, (claim_C10_thm (fun _ => 5) (mkSolver (zeroQubo 0)) fullNode).1 h⟩

end Hurricane
